import Mathlib

/-!
Verification development for the stacks-blockchain-api binary decoder core
and its utility helpers.

The TypeScript sources embedded here:
* `readBlocks` (src/docs/index.d.ts, lines 2264-2277): the block-list
  decoder orchestrator.
* the hex helpers `bufferToHexPrefixString`, `hexToBuffer`, `has0xPrefix`,
  `normalizeHashString` (lines 2043-2059, 2228-2248).
* the enum helpers `createEnumChecker`, `isEnum`, `getEnumDescription`
  together with their module-level caches (lines 1789-1867).

The `BinaryReader` byte-cursor module (`./binaryReader`) is imported by the
source but its implementation file is not part of the inspected material, so
its read primitives are modelled from the specification (sections 4.1 and
4.6).  JS `Buffer` values are modelled as lists of byte values (`List Nat`,
each element < 256) and JS strings as lists of characters (`List Char`).
-/

set_option autoImplicit false

deriving instance DecidableEq for Except

namespace StacksApi

/-! ## Byte cursor model -/

/-- The decoder error kinds of spec section 7. -/
inductive DecodeError where
  | truncatedStream
  | malformedLength
  | unknownVariant (tag : Nat) (offset : Nat)
  | structuralInvariantViolation
  deriving DecidableEq, Repr

/-- Modelled from the spec: the `BinaryReader` byte cursor (spec section 4.1,
`./binaryReader` is absent from the inspected sources).  It wraps the byte
source and a read offset; the streaming suspension is invisible in a pure
model, so a read that can never be satisfied fails with `truncatedStream`. -/
structure Cursor where
  data : List Nat
  pos : Nat
  deriving DecidableEq, Repr

/-- The bytes of the source not yet consumed. -/
def Cursor.remaining (c : Cursor) : List Nat :=
  c.data.drop c.pos

/-- Big-endian value of a byte list. -/
def beValue (bytes : List Nat) : Nat :=
  bytes.foldl (fun acc b => acc * 256 + b) 0

/-- Modelled from the spec: `readFixed(n)` returns exactly `n` raw bytes, or
fails with `TruncatedStream` when fewer than `n` bytes remain; a failing
read consumes nothing (spec section 4.1).  The cursor is returned on both
outcomes so that the position stays observable on failure paths. -/
def readFixed (n : Nat) (c : Cursor) : Cursor × Except DecodeError (List Nat) :=
  if n ≤ c.remaining.length then
    ({ c with pos := c.pos + n }, Except.ok (c.remaining.take n))
  else
    (c, Except.error DecodeError.truncatedStream)

/-- Modelled from the spec: `readUInt(width)` reads `width` bytes and decodes
them as a big-endian unsigned integer (spec section 4.1). -/
def readUInt (width : Nat) (c : Cursor) : Cursor × Except DecodeError Nat :=
  match readFixed width c with
  | (c1, Except.ok bytes) => (c1, Except.ok (beValue bytes))
  | (c1, Except.error e) => (c1, Except.error e)

/-- The `readUInt32BE` primitive used by `readBlocks`. -/
def readUInt32BE (c : Cursor) : Cursor × Except DecodeError Nat :=
  readUInt 4 c

/-- Modelled from the spec: `readLengthPrefixed(prefixWidth)` reads a
`prefixWidth`-byte big-endian length, fails with `MalformedLength` when the
declared length exceeds the protocol-defined maximum `maxLen` (a parameter
here, since the exact bound is an open question in the spec), and otherwise
reads exactly that many following bytes (spec section 4.1). -/
def readLengthPrefixed (prefixWidth maxLen : Nat) (c : Cursor) :
    Cursor × Except DecodeError (List Nat) :=
  match readUInt prefixWidth c with
  | (c1, Except.error e) => (c1, Except.error e)
  | (c1, Except.ok len) =>
    if maxLen < len then (c1, Except.error DecodeError.malformedLength)
    else readFixed len c1

/-! ## The block-list decoder (`readBlocks`) -/

/-- A decoded block: header plus ordered transaction list
(src/docs/index.d.ts lines 2254-2257).  The header and transaction types are
decoded by modules outside the inspected sources, so they are type
parameters here. -/
structure Block (H T : Type) where
  header : H
  transactions : List T
  deriving DecidableEq, Repr

/-- Reads `count` items with the item reader `rd`, threading the cursor and
collecting the results in input order; the first item failure aborts the
whole read with that error.  This is the `for (let i = 0; i < count; i++)`
loop body of `readBlocks`, generic in the item reader. -/
def readSeq {α : Type} (rd : Cursor → Cursor × Except DecodeError α) :
    Nat → Cursor → Cursor × Except DecodeError (List α)
  | 0, c => (c, Except.ok [])
  | Nat.succ n, c =>
    match rd c with
    | (c1, Except.error e) => (c1, Except.error e)
    | (c1, Except.ok x) =>
      match readSeq rd n c1 with
      | (c2, Except.error e) => (c2, Except.error e)
      | (c2, Except.ok xs) => (c2, Except.ok (x :: xs))

/-- One iteration of the `readBlocks` loop: `readBlockHeader`, then
`readTransactions`, then assemble the `Block` record
(src/docs/index.d.ts lines 2268-2274). -/
def readBlock {H T : Type} (readBlockHeader : Cursor → Cursor × Except DecodeError H)
    (readTransactions : Cursor → Cursor × Except DecodeError (List T)) (c : Cursor) :
    Cursor × Except DecodeError (Block H T) :=
  match readBlockHeader c with
  | (c1, Except.error e) => (c1, Except.error e)
  | (c1, Except.ok header) =>
    match readTransactions c1 with
    | (c2, Except.error e) => (c2, Except.error e)
    | (c2, Except.ok txs) => (c2, Except.ok { header := header, transactions := txs })

/-- `readBlocks` (src/docs/index.d.ts lines 2264-2277): reads a 4-byte
big-endian block count, then that many header-plus-transaction-list groups.
A rejected awaited sub-read propagates as the error of the whole call. -/
def readBlocks {H T : Type} (readBlockHeader : Cursor → Cursor × Except DecodeError H)
    (readTransactions : Cursor → Cursor × Except DecodeError (List T)) (stream : Cursor) :
    Cursor × Except DecodeError (List (Block H T)) :=
  match readUInt32BE stream with
  | (c1, Except.error e) => (c1, Except.error e)
  | (c1, Except.ok blockCount) =>
    readSeq (readBlock readBlockHeader readTransactions) blockCount c1

/-- Modelled from the spec: `readTransactions` (`./txReader` is absent from
the inspected sources) reads a 4-byte transaction count followed by that many
transaction reads, in input order (spec section 4.6). -/
def readTransactionList {T : Type} (readTx : Cursor → Cursor × Except DecodeError T)
    (c : Cursor) : Cursor × Except DecodeError (List T) :=
  match readUInt32BE c with
  | (c1, Except.error e) => (c1, Except.error e)
  | (c1, Except.ok txCount) => readSeq readTx txCount c1

/-! ## Specification-side descriptions of the block-list decode -/

/-- The sequence of items obtained by applying the item reader `n` times in
input order, written from the spec's words: the i-th element of the result is
the value decoded by the i-th invocation, and any failure yields no sequence
at all. -/
def specSeq {α : Type} (rd : Cursor → Cursor × Except DecodeError α) :
    Nat → Cursor → Option (List α)
  | 0, _ => some []
  | Nat.succ n, c =>
    match rd c with
    | (_, Except.error _) => none
    | (c1, Except.ok x) => (specSeq rd n c1).map (fun xs => x :: xs)

/-- The first error raised by an item reader over `n` sequential reads. -/
def firstErr {α : Type} (rd : Cursor → Cursor × Except DecodeError α) :
    Nat → Cursor → Option DecodeError
  | 0, _ => none
  | Nat.succ n, c =>
    match rd c with
    | (_, Except.error e) => some e
    | (c1, Except.ok _) => firstErr rd n c1

/-- The first error raised across the header/transaction-list component reads
of `n` sequential block groups. -/
def firstGroupErr {H T : Type} (readBlockHeader : Cursor → Cursor × Except DecodeError H)
    (readTransactions : Cursor → Cursor × Except DecodeError (List T)) :
    Nat → Cursor → Option DecodeError
  | 0, _ => none
  | Nat.succ n, c =>
    match readBlockHeader c with
    | (_, Except.error e) => some e
    | (c1, Except.ok _) =>
      match readTransactions c1 with
      | (_, Except.error e) => some e
      | (c2, Except.ok _) => firstGroupErr readBlockHeader readTransactions n c2

/-! ## Concrete sample readers used by witnesses and counterexamples -/

/-- A header reader that always fails with a recognizable marker error. -/
def hdrMark : Cursor → Cursor × Except DecodeError Unit :=
  fun c => (c, Except.error (DecodeError.unknownVariant 99 c.pos))

/-- A transaction-list reader that always fails. -/
def txMark : Cursor → Cursor × Except DecodeError (List Unit) :=
  fun c => (c, Except.error DecodeError.structuralInvariantViolation)

/-- A header reader that reads one byte as the header. -/
def hdrNat : Cursor → Cursor × Except DecodeError Nat := readUInt 1

/-- A transaction-list reader that reads nothing. -/
def txsEmpty : Cursor → Cursor × Except DecodeError (List Nat) :=
  fun c => (c, Except.ok [])

/-! ## Hex helpers (src/docs/index.d.ts lines 2043-2059, 2228-2248) -/

/-- JS strings modelled as lists of characters. -/
abbrev JsStr := List Char

/-- The hex digit character for a value `0..15`, lower case — the alphabet
used by `Buffer.toString('hex')`. -/
def hexDigit (n : Nat) : Char :=
  if n = 0 then '0' else if n = 1 then '1' else if n = 2 then '2'
  else if n = 3 then '3' else if n = 4 then '4' else if n = 5 then '5'
  else if n = 6 then '6' else if n = 7 then '7' else if n = 8 then '8'
  else if n = 9 then '9' else if n = 10 then 'a' else if n = 11 then 'b'
  else if n = 12 then 'c' else if n = 13 then 'd' else if n = 14 then 'e'
  else 'f'

/-- The numeric value of a hex digit character (`0`-`9`, `a`-`f`, `A`-`F`),
or `none` for every other character — the digit set accepted by
`Buffer.from(_, 'hex')`, expressed through the ASCII code ranges. -/
def hexVal? (c : Char) : Option Nat :=
  if 48 ≤ c.toNat ∧ c.toNat ≤ 57 then some (c.toNat - 48)
  else if 97 ≤ c.toNat ∧ c.toNat ≤ 102 then some (c.toNat - 87)
  else if 65 ≤ c.toNat ∧ c.toNat ≤ 70 then some (c.toNat - 55)
  else none

/-- Whether a character is a hexadecimal digit. -/
def isHexChar (c : Char) : Bool :=
  (hexVal? c).isSome

/-- `Buffer.toString('hex')`: each byte becomes two lower-case hex digits. -/
def bufferToHex : List Nat → List Char
  | [] => []
  | b :: rest => hexDigit (b / 16) :: hexDigit (b % 16) :: bufferToHex rest

/-- `Buffer.from(str, 'hex')` (Node semantics): decodes two characters per
byte, stopping at the first pair containing a non-hex character and dropping
a trailing unpaired character. -/
def bufferFromHex : List Char → List Nat
  | c1 :: c2 :: rest =>
    match hexVal? c1, hexVal? c2 with
    | some hi, some lo => (16 * hi + lo) :: bufferFromHex rest
    | _, _ => []
  | _ => []

/-- `bufferToHexPrefixString` (lines 2043-2045): encodes a buffer as a `0x`
prefixed lower-case hex string. -/
def bufferToHexPrefixString (buff : List Nat) : JsStr :=
  '0' :: 'x' :: bufferToHex buff

/-- `hexToBuffer` (lines 2051-2059): decodes a `0x` prefixed hex string to a
buffer, throwing (modelled as `Except.error`) when the `0x` prefix is absent
or the string has an odd number of characters. -/
def hexToBuffer (hex : JsStr) : Except JsStr (List Nat) :=
  if hex.take 2 ≠ ['0', 'x'] then
    Except.error (("Hex string is missing the \"0x\" prefix: \"").toList ++ hex ++ ("\"").toList)
  else if hex.length % 2 ≠ 0 then
    Except.error (("Hex string is an odd number of digits: ").toList ++ hex)
  else
    Except.ok (bufferFromHex (hex.drop 2))

/-- `has0xPrefix` (line 2228): `id.substr(0, 2).toLowerCase() === '0x'`.
Lower-casing the first two characters yields the ASCII string `0x` exactly
when the first character is `0` and the second is `x` or `X` (no other
Unicode character lower-cases to `0` or to `x`). -/
def has0xPrefix (id : JsStr) : Bool :=
  match id with
  | c0 :: c1 :: _ => c0 = '0' && (c1 = 'x' || c1 = 'X')
  | _ => false

/-- `normalizeHashString` (lines 2234-2248): checks that the input is a valid
32-byte hex string and returns its lower-case `0x`-prefixed form, or `false`
(modelled as `none`) when invalid. -/
def normalizeHashString (input : JsStr) : Option JsStr :=
  let hashBuffer : Option (List Nat) :=
    if input.length = 66 ∧ has0xPrefix input = true then some (bufferFromHex (input.drop 2))
    else if input.length = 64 then some (bufferFromHex input)
    else none
  match hashBuffer with
  | none => none
  | some hb =>
    if hb.length ≠ 32 then none
    else some ('0' :: 'x' :: bufferToHex hb)

/-! ## Enum helpers and their module-level caches (lines 1789-1867) -/

/-- A JS value stored in an enum object: TS enum members are numbers or
strings (numeric enums additionally carry string reverse-mapping entries). -/
inductive JsValue where
  | num (n : Int)
  | str (s : String)
  deriving DecidableEq, Repr

/-- A TS enum object: its own enumerable properties in definition order.
Object identity is modelled by the object's contents, which is faithful for
cache observations because the cached data is computed from the contents. -/
structure EnumObj where
  entries : List (String × JsValue)
  deriving DecidableEq, Repr

/-- `Object.values(enumVariable)`. -/
def jsObjectValues (E : EnumObj) : List JsValue :=
  E.entries.map (fun kv => kv.2)

/-- `createEnumChecker` (lines 1789-1796): the set of valid enum number
values (the checker closure is represented by this list; the closure returns
membership in it). -/
def createEnumChecker (E : EnumObj) : List Int :=
  (jsObjectValues E).filterMap (fun v =>
    match v with
    | JsValue.num n => some n
    | JsValue.str _ => none)

/-- The module-level `enumCheckFunctions` map (line 1798), keyed by the enum
object. -/
abbrev EnumCheckCache := List (EnumObj × List Int)

/-- `Map.get` on an association-list model of a JS `Map`. -/
def cacheGet {α : Type} (cache : List (EnumObj × α)) (E : EnumObj) : Option α :=
  (cache.find? (fun p => p.1 == E)).map (fun p => p.2)

/-- `isEnum` (lines 1817-1828): consults the module-level cache, lazily
creating and storing the checker on a miss and then re-dispatching through
the cache (the tail call `return isEnum(enumVariable, value)`; the second
`cacheGet` match is that recursive call, whose `none` branch is
unreachable). -/
def isEnum (cache : EnumCheckCache) (E : EnumObj) (v : Int) : Bool × EnumCheckCache :=
  match cacheGet cache E with
  | some checker => (checker.contains v, cache)
  | none =>
    let newChecker := createEnumChecker E
    let cache' := (E, newChecker) :: cache
    match cacheGet cache' E with
    | some checker => (checker.contains v, cache')
    | none => (false, cache')

/-- The value→name map built by `getEnumDescription` (lines 1860-1864):
`Object.entries` filtered to numeric values, mapped to `[value, name]`. -/
def enumEntriesMap (E : EnumObj) : List (Int × String) :=
  E.entries.filterMap (fun kv =>
    match kv.2 with
    | JsValue.num n => some (n, kv.1)
    | JsValue.str _ => none)

/-- The module-level `enumMaps` map (line 1844). -/
abbrev EnumMapsCache := List (EnumObj × List (Int × String))

/-- `Map.get` over the entry list of a JS `Map` built with `new Map(entries)`:
for duplicate keys the last entry wins. -/
def jsMapGet (entries : List (Int × String)) (k : Int) : Option String :=
  (entries.reverse.find? (fun p => p.1 == k)).map (fun p => p.2)

/-- The single-quote character used in the description template. -/
def quoteChar : Char := Char.ofNat 39

/-- `getEnumDescription` (lines 1846-1867): consults the module-level
`enumMaps` cache and renders the value with its enum key name when present;
on a miss it builds and stores the map, then re-dispatches (the tail call
`return getEnumDescription(enumVariable, value)`; the second match is that
recursive call, whose `none` branch is unreachable). -/
def getEnumDescription (maps : EnumMapsCache) (E : EnumObj) (v : Int) :
    String × EnumMapsCache :=
  match cacheGet maps E with
  | some enumMap =>
    (match jsMapGet enumMap v with
     | some enumKey =>
       (toString v ++ " " ++ String.singleton quoteChar ++ enumKey ++ String.singleton quoteChar, maps)
     | none => (toString v, maps))
  | none =>
    let newEnumMap := enumEntriesMap E
    let maps' := (E, newEnumMap) :: maps
    match cacheGet maps' E with
    | some enumMap =>
      (match jsMapGet enumMap v with
       | some enumKey =>
         (toString v ++ " " ++ String.singleton quoteChar ++ enumKey ++ String.singleton quoteChar, maps')
       | none => (toString v, maps'))
    | none => (toString v, maps')


/-! ## Auxiliary definitions for the claim statements -/

/-- A byte-cursor read operation (spec section 4.1), used to state invariants
over arbitrary operation sequences. -/
inductive CursorOp where
  | uint (width : Nat)
  | fixed (n : Nat)
  | lengthPrefixed (prefixWidth maxLen : Nat)
  deriving DecidableEq, Repr

/-- The cursor state after performing one read operation (on success or
failure alike). -/
def runOp : CursorOp → Cursor → Cursor
  | CursorOp.uint w, c => (readUInt w c).1
  | CursorOp.fixed n, c => (readFixed n c).1
  | CursorOp.lengthPrefixed pw maxLen, c => (readLengthPrefixed pw maxLen c).1

/-- The cursor state after performing a sequence of read operations. -/
def runOps (ops : List CursorOp) (c : Cursor) : Cursor :=
  ops.foldl (fun c op => runOp op c) c

/-- The shared `enumCheckFunctions` cache is consistent: every stored checker
is the one `createEnumChecker` builds for its key.  This holds for the empty
(post-construction) cache and is preserved by every `isEnum` call. -/
def CacheOK (cache : EnumCheckCache) : Prop :=
  ∀ p ∈ cache, p.2 = createEnumChecker p.1

/-- The sample enum from the `isEnum` doc comment:
`enum Color { Purple = 3, Orange = 5 }`. -/
def colorEnum : EnumObj :=
  ⟨[("Purple", JsValue.num 3), ("Orange", JsValue.num 5)]⟩

/-! ## Cursor primitive lemmas -/

theorem readFixed_ok_inv {n : Nat} {c c' : Cursor} {bytes : List Nat}
    (h : readFixed n c = (c', Except.ok bytes)) :
    n ≤ c.remaining.length ∧ bytes = c.remaining.take n ∧ c' = { c with pos := c.pos + n } := by
  unfold readFixed at h
  split at h
  · simp only [Prod.mk.injEq, Except.ok.injEq] at h
    exact ⟨by assumption, h.2.symm, h.1.symm⟩
  · simp at h

theorem readFixed_err_inv {n : Nat} {c c' : Cursor} {e : DecodeError}
    (h : readFixed n c = (c', Except.error e)) :
    c.remaining.length < n ∧ c' = c ∧ e = DecodeError.truncatedStream := by
  unfold readFixed at h
  split at h
  · simp at h
  · simp only [Prod.mk.injEq, Except.error.injEq] at h
    exact ⟨by omega, h.1.symm, h.2.symm⟩

theorem readUInt_ok_inv {w : Nat} {c c' : Cursor} {v : Nat}
    (h : readUInt w c = (c', Except.ok v)) :
    w ≤ c.remaining.length ∧ v = beValue (c.remaining.take w) ∧
      c' = { c with pos := c.pos + w } := by
  unfold readUInt at h
  rcases hf : readFixed w c with ⟨cf, rf⟩
  rw [hf] at h
  cases rf with
  | ok bytes =>
    simp only [Prod.mk.injEq, Except.ok.injEq] at h
    obtain ⟨hle, hb, hc⟩ := readFixed_ok_inv hf
    exact ⟨hle, by rw [← h.2, hb], by rw [← h.1, hc]⟩
  | error e => simp at h

theorem readUInt_err_inv {w : Nat} {c c' : Cursor} {e : DecodeError}
    (h : readUInt w c = (c', Except.error e)) :
    c.remaining.length < w ∧ c' = c ∧ e = DecodeError.truncatedStream := by
  unfold readUInt at h
  rcases hf : readFixed w c with ⟨cf, rf⟩
  rw [hf] at h
  cases rf with
  | ok bytes => simp at h
  | error e' =>
    simp only [Prod.mk.injEq, Except.error.injEq] at h
    obtain ⟨hlt, hc, he⟩ := readFixed_err_inv hf
    exact ⟨hlt, by rw [← h.1, hc], by rw [← h.2, he]⟩

theorem readUInt_of_le {w : Nat} {c : Cursor} (h : w ≤ c.remaining.length) :
    readUInt w c = ({ c with pos := c.pos + w }, Except.ok (beValue (c.remaining.take w))) := by
  have hf : readFixed w c = ({ c with pos := c.pos + w }, Except.ok (c.remaining.take w)) := by
    unfold readFixed
    rw [if_pos h]
  unfold readUInt
  rw [hf]

/-! ## Block-list decoder lemmas -/

theorem readSeq_firstErr {α : Type} (rd : Cursor → Cursor × Except DecodeError α) :
    ∀ (n : Nat) (c : Cursor) (e : DecodeError),
      firstErr rd n c = some e → (readSeq rd n c).2 = Except.error e
  | 0, c, e => by simp [firstErr]
  | Nat.succ n, c, e => by
    intro h
    rcases hr : rd c with ⟨c1, r⟩
    rw [firstErr] at h
    rw [readSeq]
    rw [hr] at h ⊢
    cases r with
    | error e' => simp_all
    | ok x =>
      simp only at h ⊢
      have ih := readSeq_firstErr rd n c1 e h
      rcases hs : readSeq rd n c1 with ⟨c2, rs⟩
      rw [hs] at ih
      cases rs <;> simp_all

theorem readSeq_ok_spec {α : Type} (rd : Cursor → Cursor × Except DecodeError α) :
    ∀ (n : Nat) (c c' : Cursor) (l : List α),
      readSeq rd n c = (c', Except.ok l) → specSeq rd n c = some l
  | 0, c, c', l => by
    intro h
    simp only [readSeq, Prod.mk.injEq, Except.ok.injEq] at h
    simp [specSeq, ← h.2]
  | Nat.succ n, c, c', l => by
    intro h
    rcases hr : rd c with ⟨c1, r⟩
    rw [readSeq] at h
    rw [specSeq]
    rw [hr] at h ⊢
    cases r with
    | error e => simp_all
    | ok x =>
      simp only at h ⊢
      rcases hs : readSeq rd n c1 with ⟨c2, rs⟩
      rw [hs] at h
      cases rs with
      | error e => simp_all
      | ok xs =>
        simp only [Prod.mk.injEq, Except.ok.injEq] at h
        rw [readSeq_ok_spec rd n c1 c2 xs hs]
        simp [h.2]

theorem specSeq_length {α : Type} (rd : Cursor → Cursor × Except DecodeError α) :
    ∀ (n : Nat) (c : Cursor) (l : List α), specSeq rd n c = some l → l.length = n
  | 0, c, l => by intro h; simp only [specSeq, Option.some.injEq] at h; simp [← h]
  | Nat.succ n, c, l => by
    intro h
    rcases hr : rd c with ⟨c1, r⟩
    rw [specSeq] at h
    rw [hr] at h
    cases r with
    | error e => simp_all
    | ok x =>
      simp only [Option.map_eq_some'] at h
      obtain ⟨xs, hxs, hl⟩ := h
      rw [← hl]
      simp [specSeq_length rd n c1 xs hxs]

theorem firstGroupErr_eq {H T : Type} (hdr : Cursor → Cursor × Except DecodeError H)
    (tx : Cursor → Cursor × Except DecodeError (List T)) :
    ∀ (n : Nat) (c : Cursor),
      firstGroupErr hdr tx n c = firstErr (readBlock hdr tx) n c
  | 0, c => rfl
  | Nat.succ n, c => by
    rcases hh : hdr c with ⟨c1, rh⟩
    rw [firstGroupErr, firstErr, readBlock]
    rw [hh]
    cases rh with
    | error e => simp
    | ok h =>
      simp only
      rcases ht : tx c1 with ⟨c2, rt⟩
      cases rt with
      | error e => simp
      | ok txs => simpa using firstGroupErr_eq hdr tx n c2

/-! ## Claim theorems for the block-list decoder -/

/-- C1: if any component decode invoked by `readBlocks` (the block-count
read, or a block-header or transaction-list read of any group) fails, the
whole `readBlocks` call fails with that first error; the `Except` result
carries no block list on the error path, so no partial result is surfaced. -/
theorem c1_readBlocks_failFast :
    ∀ (H T : Type) (hdr : Cursor → Cursor × Except DecodeError H)
      (tx : Cursor → Cursor × Except DecodeError (List T)) (c : Cursor),
      (∀ (c1 : Cursor) (e : DecodeError), readUInt32BE c = (c1, Except.error e) →
        readBlocks hdr tx c = (c1, Except.error e)) ∧
      (∀ (c1 : Cursor) (n : Nat) (e : DecodeError), readUInt32BE c = (c1, Except.ok n) →
        firstGroupErr hdr tx n c1 = some e →
        (readBlocks hdr tx c).2 = Except.error e) := by
  intro H T hdr tx c
  constructor
  · intro c1 e h
    unfold readBlocks
    rw [h]
  · intro c1 n e h hfe
    unfold readBlocks
    rw [h]
    rw [firstGroupErr_eq] at hfe
    exact readSeq_firstErr _ n c1 e hfe

/-- C2: when `readBlocks` succeeds, the returned sequence has length equal to
the leading 4-byte big-endian block count and equals the in-order sequence of
header-plus-transaction-list groups; likewise a successful transaction-list
read returns the transactions in input order. -/
theorem c2_readBlocks_ordered :
    (∀ (H T : Type) (hdr : Cursor → Cursor × Except DecodeError H)
      (tx : Cursor → Cursor × Except DecodeError (List T)) (c c' : Cursor)
      (l : List (Block H T)),
      readBlocks hdr tx c = (c', Except.ok l) →
      ∃ c1 n, readUInt32BE c = (c1, Except.ok n) ∧
        n = beValue (c.remaining.take 4) ∧
        l.length = n ∧
        specSeq (readBlock hdr tx) n c1 = some l) ∧
    (∀ (T : Type) (readTx : Cursor → Cursor × Except DecodeError T) (c c' : Cursor)
      (txs : List T),
      readTransactionList readTx c = (c', Except.ok txs) →
      ∃ c1 m, readUInt32BE c = (c1, Except.ok m) ∧ txs.length = m ∧
        specSeq readTx m c1 = some txs) := by
  constructor
  · intro H T hdr tx c c' l h
    unfold readBlocks at h
    rcases hu : readUInt32BE c with ⟨c1, ru⟩
    rw [hu] at h
    cases ru with
    | error e => simp at h
    | ok n =>
      refine ⟨c1, n, rfl, ?_, ?_, ?_⟩
      · exact (readUInt_ok_inv hu).2.1
      · exact specSeq_length _ n c1 l (readSeq_ok_spec _ n c1 c' l h)
      · exact readSeq_ok_spec _ n c1 c' l h
  · intro T readTx c c' txs h
    unfold readTransactionList at h
    rcases hu : readUInt32BE c with ⟨c1, ru⟩
    rw [hu] at h
    cases ru with
    | error e => simp at h
    | ok m =>
      exact ⟨c1, m, rfl, specSeq_length _ m c1 txs (readSeq_ok_spec _ m c1 c' txs h),
        readSeq_ok_spec _ m c1 c' txs h⟩

/-- C3: a leading block count of zero makes `readBlocks` return the empty
sequence with the cursor advanced by exactly the 4 bytes of the count field,
for every header and transaction-list reader — so no further read touches
the stream. -/
theorem c3_readBlocks_zeroCount :
    ∀ (H T : Type) (hdr : Cursor → Cursor × Except DecodeError H)
      (tx : Cursor → Cursor × Except DecodeError (List T)) (c : Cursor),
      4 ≤ c.remaining.length →
      beValue (c.remaining.take 4) = 0 →
      readBlocks hdr tx c = ({ c with pos := c.pos + 4 }, Except.ok []) := by
  intro H T hdr tx c hle hz
  unfold readBlocks readUInt32BE
  rw [readUInt_of_le hle, hz]
  rfl

/-- C1 witness: on a stream declaring one block whose header read fails with
a marker error, `readBlocks` fails with exactly that error. -/
theorem c1_readBlocks_failFast_witness :
    (readBlocks hdrMark txMark ⟨[0, 0, 0, 1], 0⟩).2 =
      Except.error (DecodeError.unknownVariant 99 4) :=
  (c1_readBlocks_failFast Unit Unit hdrMark txMark ⟨[0, 0, 0, 1], 0⟩).2
    ⟨[0, 0, 0, 1], 4⟩ 1 (DecodeError.unknownVariant 99 4) (by decide) (by decide)

/-- C2 witness: a concrete two-block stream decodes to the declared count and
the in-order spec sequence. -/
theorem c2_readBlocks_ordered_witness :
    ∃ c1 n, readUInt32BE ⟨[0, 0, 0, 2, 7, 9], 0⟩ = (c1, Except.ok n) ∧
      n = beValue ((Cursor.remaining ⟨[0, 0, 0, 2, 7, 9], 0⟩).take 4) ∧
      ([⟨7, []⟩, ⟨9, []⟩] : List (Block Nat Nat)).length = n ∧
      specSeq (readBlock hdrNat txsEmpty) n c1 = some [⟨7, []⟩, ⟨9, []⟩] :=
  c2_readBlocks_ordered.1 Nat Nat hdrNat txsEmpty ⟨[0, 0, 0, 2, 7, 9], 0⟩
    ⟨[0, 0, 0, 2, 7, 9], 6⟩ [⟨7, []⟩, ⟨9, []⟩] (by decide)

/-- C3 witness: a zero block count yields the empty sequence with the cursor
advanced by exactly 4 bytes. -/
theorem c3_readBlocks_zeroCount_witness :
    readBlocks hdrMark txMark ⟨[0, 0, 0, 0], 0⟩ = (⟨[0, 0, 0, 0], 4⟩, Except.ok []) :=
  c3_readBlocks_zeroCount Unit Unit hdrMark txMark ⟨[0, 0, 0, 0], 0⟩
    (by decide) (by decide)

/-- C5 counterexample: with the maximal 32-bit block count `4294967295` —
a value above any sane bound — `readBlocks` does not fail with
`MalformedLength`; it proceeds to invoke the block-header reader (whose
marker error, recorded at offset 4, is what the call returns). -/
theorem c5_counterexample :
    readBlocks hdrMark txMark ⟨[255, 255, 255, 255], 0⟩ =
      (⟨[255, 255, 255, 255], 4⟩, Except.error (DecodeError.unknownVariant 99 4)) ∧
    DecodeError.unknownVariant 99 4 ≠ DecodeError.malformedLength := by
  exact ⟨by decide, by decide⟩

/-- C5 amended: declared byte-lengths read through `readLengthPrefixed` are
checked against the protocol maximum and fail with `MalformedLength` when
they exceed it, but the leading block count read by `readBlocks` is not
bound-checked: whatever count the stream declares, `readBlocks` proceeds
directly to the per-block read loop. -/
theorem c5_amended_lengthChecks :
    (∀ (pw maxLen : Nat) (c c1 : Cursor) (len : Nat),
      readUInt pw c = (c1, Except.ok len) → maxLen < len →
      readLengthPrefixed pw maxLen c = (c1, Except.error DecodeError.malformedLength)) ∧
    (∀ (H T : Type) (hdr : Cursor → Cursor × Except DecodeError H)
      (tx : Cursor → Cursor × Except DecodeError (List T)) (c c1 : Cursor) (n : Nat),
      readUInt32BE c = (c1, Except.ok n) →
      readBlocks hdr tx c = readSeq (readBlock hdr tx) n c1) := by
  constructor
  · intro pw maxLen c c1 len h hlt
    unfold readLengthPrefixed
    rw [h]
    simp [hlt]
  · intro H T hdr tx c c1 n h
    unfold readBlocks
    rw [h]

/-- C5 amended witness: a one-byte length prefix declaring 5 bytes against a
maximum of 2 fails with `MalformedLength` with only the prefix consumed. -/
theorem c5_amended_lengthChecks_witness :
    readLengthPrefixed 1 2 ⟨[5, 0, 0, 0, 0, 0], 0⟩ =
      (⟨[5, 0, 0, 0, 0, 0], 1⟩, Except.error DecodeError.malformedLength) :=
  c5_amended_lengthChecks.1 1 2 ⟨[5, 0, 0, 0, 0, 0], 0⟩ ⟨[5, 0, 0, 0, 0, 0], 1⟩ 5
    (by decide) (by decide)

/-! ## Cursor position lemmas -/

theorem readFixed_pos_le (n : Nat) (c : Cursor) : c.pos ≤ (readFixed n c).1.pos := by
  unfold readFixed
  split
  · simp
  · simp

theorem readUInt_pos_le (w : Nat) (c : Cursor) : c.pos ≤ (readUInt w c).1.pos := by
  have h := readFixed_pos_le w c
  unfold readUInt
  rcases hf : readFixed w c with ⟨c1, r⟩
  rw [hf] at h
  cases r <;> simpa using h

theorem readLengthPrefixed_pos_le (pw maxLen : Nat) (c : Cursor) :
    c.pos ≤ (readLengthPrefixed pw maxLen c).1.pos := by
  have h1 := readUInt_pos_le pw c
  unfold readLengthPrefixed
  rcases hu : readUInt pw c with ⟨c1, r⟩
  rw [hu] at h1
  cases r with
  | error e => simpa using h1
  | ok len =>
    simp only
    split
    · simpa using h1
    · exact le_trans h1 (readFixed_pos_le len c1)

theorem runOp_pos_le (op : CursorOp) (c : Cursor) : c.pos ≤ (runOp op c).pos := by
  cases op with
  | uint w => exact readUInt_pos_le w c
  | fixed n => exact readFixed_pos_le n c
  | lengthPrefixed pw maxLen => exact readLengthPrefixed_pos_le pw maxLen c

theorem runOps_pos_le : ∀ (ops : List CursorOp) (c : Cursor), c.pos ≤ (runOps ops c).pos
  | [], _ => Nat.le_refl _
  | op :: ops, c =>
    le_trans (runOp_pos_le op c) (runOps_pos_le ops (runOp op c))

/-! ## Claim theorems for the byte-cursor primitives -/

/-- C6: every cursor read primitive returns exactly the requested byte count
or fails — `readFixed` returns `n` bytes exactly when `n` remain, and fails
with `TruncatedStream` otherwise; `readUInt` consumes exactly its width;
`readLengthPrefixed` returns exactly the declared number of bytes and fails
with `TruncatedStream` when the prefix or the body falls short; and dropping
the final byte of a buffer a successful `readFixed` consumed to the end turns
that read into a `TruncatedStream` failure rather than a shorter success. -/
theorem c6_reads_exact_or_fail :
    (∀ (n : Nat) (c : Cursor) (bytes : List Nat),
      (readFixed n c).2 = Except.ok bytes → bytes.length = n) ∧
    (∀ (n : Nat) (c : Cursor), c.remaining.length < n →
      readFixed n c = (c, Except.error DecodeError.truncatedStream)) ∧
    (∀ (w : Nat) (c : Cursor) (v : Nat), (readUInt w c).2 = Except.ok v →
      (readUInt w c).1.pos = c.pos + w) ∧
    (∀ (w : Nat) (c : Cursor), c.remaining.length < w →
      readUInt w c = (c, Except.error DecodeError.truncatedStream)) ∧
    (∀ (pw maxLen : Nat) (c : Cursor) (bytes : List Nat),
      (readLengthPrefixed pw maxLen c).2 = Except.ok bytes →
      bytes.length = beValue (c.remaining.take pw)) ∧
    (∀ (pw maxLen : Nat) (c : Cursor), c.remaining.length < pw →
      readLengthPrefixed pw maxLen c = (c, Except.error DecodeError.truncatedStream)) ∧
    (∀ (pw maxLen : Nat) (c c1 : Cursor) (len : Nat),
      readUInt pw c = (c1, Except.ok len) → len ≤ maxLen →
      c1.remaining.length < len →
      readLengthPrefixed pw maxLen c = (c1, Except.error DecodeError.truncatedStream)) ∧
    (∀ (n : Nat) (data : List Nat) (p : Nat) (bytes : List Nat), 0 < n →
      (readFixed n ⟨data, p⟩).2 = Except.ok bytes → p + n = data.length →
      (readFixed n ⟨data.dropLast, p⟩).2 = Except.error DecodeError.truncatedStream) := by
  have hfixl : ∀ (n : Nat) (c : Cursor), c.remaining.length < n →
      readFixed n c = (c, Except.error DecodeError.truncatedStream) := by
    intro n c h
    unfold readFixed
    rw [if_neg (by omega)]
  have huintl : ∀ (w : Nat) (c : Cursor), c.remaining.length < w →
      readUInt w c = (c, Except.error DecodeError.truncatedStream) := by
    intro w c h
    unfold readUInt
    rw [hfixl w c h]
  refine ⟨?_, hfixl, ?_, huintl, ?_, ?_, ?_, ?_⟩
  · intro n c bytes h
    rcases hf : readFixed n c with ⟨c1, r⟩
    rw [hf] at h
    cases r with
    | error e => simp at h
    | ok bytes' =>
      simp only [Except.ok.injEq] at h
      obtain ⟨hle, hb, _⟩ := readFixed_ok_inv hf
      rw [← h, hb, List.length_take]
      omega
  · intro w c v h
    rcases hu : readUInt w c with ⟨c1, r⟩
    rw [hu] at h
    cases r with
    | error e => simp at h
    | ok v' =>
      obtain ⟨_, _, hc⟩ := readUInt_ok_inv hu
      simp [hc]
  · intro pw maxLen c bytes h
    unfold readLengthPrefixed at h
    rcases hu : readUInt pw c with ⟨c1, r⟩
    rw [hu] at h
    cases r with
    | error e => simp at h
    | ok len =>
      simp only at h
      split at h
      · simp at h
      · rcases hf : readFixed len c1 with ⟨c2, rf⟩
        rw [hf] at h
        cases rf with
        | error e => simp at h
        | ok bytes' =>
          simp only [Except.ok.injEq] at h
          obtain ⟨hle, hb, _⟩ := readFixed_ok_inv hf
          obtain ⟨_, hv, _⟩ := readUInt_ok_inv hu
          rw [← h, hb, List.length_take, ← hv]
          omega
  · intro pw maxLen c h
    unfold readLengthPrefixed
    rw [huintl pw c h]
  · intro pw maxLen c c1 len hu hle hlt
    unfold readLengthPrefixed
    rw [hu]
    simp only
    rw [if_neg (by omega)]
    exact hfixl len c1 hlt
  · intro n data p bytes hn h hend
    have hle : n ≤ (Cursor.remaining ⟨data, p⟩).length := by
      rcases hf : readFixed n ⟨data, p⟩ with ⟨c1, r⟩
      rw [hf] at h
      cases r with
      | error e => simp at h
      | ok bytes' => exact (readFixed_ok_inv hf).1
    have hrem : (Cursor.remaining ⟨data, p⟩).length = data.length - p := by
      simp [Cursor.remaining]
    have hrem' : (Cursor.remaining ⟨data.dropLast, p⟩).length = data.length - 1 - p := by
      simp [Cursor.remaining]
    rw [hfixl n ⟨data.dropLast, p⟩ (by omega)]

/-- C6 witness: truncating the final byte of a buffer that a two-byte read
consumed exactly makes the read fail with `TruncatedStream`. -/
theorem c6_reads_exact_or_fail_witness :
    (readFixed 2 ⟨[7, 8].dropLast, 0⟩).2 = Except.error DecodeError.truncatedStream :=
  c6_reads_exact_or_fail.2.2.2.2.2.2.2 2 [7, 8] 0 [7, 8] (by decide) (by decide) (by decide)

/-- C7: the cursor position is monotonically non-decreasing across any
sequence of read operations, and after each operation — including failing
ones — it equals the bytes actually consumed: a successful `readFixed` or
`readUInt` advances by exactly its request and a failing one not at all,
while `readLengthPrefixed` advances by prefix plus body on success, and on
failure either nothing (prefix truncated) or exactly the prefix width
(malformed length or truncated body) was consumed. -/
theorem c7_position_monotone :
    (∀ (ops : List CursorOp) (c : Cursor), c.pos ≤ (runOps ops c).pos) ∧
    (∀ (op : CursorOp) (c : Cursor), c.pos ≤ (runOp op c).pos) ∧
    (∀ (n : Nat) (c : Cursor),
      ((∃ bytes, (readFixed n c).2 = Except.ok bytes) →
        (readFixed n c).1 = { c with pos := c.pos + n }) ∧
      ((∃ e, (readFixed n c).2 = Except.error e) → (readFixed n c).1 = c)) ∧
    (∀ (w : Nat) (c : Cursor),
      ((∃ v, (readUInt w c).2 = Except.ok v) →
        (readUInt w c).1 = { c with pos := c.pos + w }) ∧
      ((∃ e, (readUInt w c).2 = Except.error e) → (readUInt w c).1 = c)) ∧
    (∀ (pw maxLen : Nat) (c : Cursor),
      (∀ bytes, (readLengthPrefixed pw maxLen c).2 = Except.ok bytes →
        (readLengthPrefixed pw maxLen c).1.pos = c.pos + pw + bytes.length) ∧
      (∀ e, (readLengthPrefixed pw maxLen c).2 = Except.error e →
        ((readUInt pw c).2 = Except.error e ∧ (readLengthPrefixed pw maxLen c).1 = c) ∨
        ((∃ len, (readUInt pw c).2 = Except.ok len) ∧
          (readLengthPrefixed pw maxLen c).1.pos = c.pos + pw))) := by
  refine ⟨runOps_pos_le, runOp_pos_le, ?_, ?_, ?_⟩
  · intro n c
    constructor
    · rintro ⟨bytes, h⟩
      rcases hf : readFixed n c with ⟨c1, r⟩
      rw [hf] at h
      cases r with
      | error e => simp at h
      | ok bytes' => exact (readFixed_ok_inv hf).2.2
    · rintro ⟨e, h⟩
      rcases hf : readFixed n c with ⟨c1, r⟩
      rw [hf] at h
      cases r with
      | error e' => exact (readFixed_err_inv hf).2.1
      | ok bytes' => simp at h
  · intro w c
    constructor
    · rintro ⟨v, h⟩
      rcases hu : readUInt w c with ⟨c1, r⟩
      rw [hu] at h
      cases r with
      | error e => simp at h
      | ok v' => exact (readUInt_ok_inv hu).2.2
    · rintro ⟨e, h⟩
      rcases hu : readUInt w c with ⟨c1, r⟩
      rw [hu] at h
      cases r with
      | error e' => exact (readUInt_err_inv hu).2.1
      | ok v' => simp at h
  · intro pw maxLen c
    constructor
    · intro bytes h
      rcases hu : readUInt pw c with ⟨c1, r⟩
      unfold readLengthPrefixed at h ⊢
      rw [hu] at h ⊢
      cases r with
      | error e => simp at h
      | ok len =>
        simp only at h ⊢
        by_cases hml : maxLen < len
        · rw [if_pos hml] at h
          simp at h
        · rw [if_neg hml] at h ⊢
          rcases hf : readFixed len c1 with ⟨c2, rf⟩
          rw [hf] at h
          cases rf with
          | error e => simp at h
          | ok bytes' =>
            simp only [Except.ok.injEq] at h
            obtain ⟨hle, hb, hc2⟩ := readFixed_ok_inv hf
            obtain ⟨_, _, hc1⟩ := readUInt_ok_inv hu
            have hblen : bytes.length = len := by
              rw [← h, hb, List.length_take]
              omega
            rw [hc2, hc1, hblen]
    · intro e h
      rcases hu : readUInt pw c with ⟨c1, r⟩
      unfold readLengthPrefixed at h ⊢
      rw [hu] at h ⊢
      cases r with
      | error e' =>
        simp only at h ⊢
        left
        obtain ⟨_, hc1, _⟩ := readUInt_err_inv hu
        have he : e' = e := by simpa using h
        exact ⟨by rw [he], by simpa using hc1⟩
      | ok len =>
        right
        refine ⟨⟨len, rfl⟩, ?_⟩
        obtain ⟨_, _, hc1⟩ := readUInt_ok_inv hu
        simp only at h ⊢
        by_cases hml : maxLen < len
        · rw [if_pos hml]
          simp [hc1]
        · rw [if_neg hml] at h ⊢
          rcases hf : readFixed len c1 with ⟨c2, rf⟩
          rw [hf] at h
          cases rf with
          | error e' =>
            obtain ⟨_, hc2, _⟩ := readFixed_err_inv hf
            simp [hc2, hc1]
          | ok bytes' => simp at h

/-- C7 witness: a length-prefixed read whose body is truncated leaves the
cursor advanced by exactly the one-byte prefix it consumed. -/
theorem c7_position_monotone_witness :
    ((readUInt 1 ⟨[2, 7], 0⟩).2 = Except.error DecodeError.truncatedStream ∧
      (readLengthPrefixed 1 200 ⟨[2, 7], 0⟩).1 = ⟨[2, 7], 0⟩) ∨
    ((∃ len, (readUInt 1 ⟨[2, 7], 0⟩).2 = Except.ok len) ∧
      (readLengthPrefixed 1 200 ⟨[2, 7], 0⟩).1.pos = 0 + 1) :=
  ((c7_position_monotone.2.2.2.2 1 200 ⟨[2, 7], 0⟩).2
    DecodeError.truncatedStream (by decide))

/-! ## Hex lemmas -/

theorem hexVal?_hexDigit (n : Nat) (h : n < 16) : hexVal? (hexDigit n) = some n := by
  interval_cases n <;> decide

theorem hexVal?_lt16 {c : Char} {v : Nat} (h : hexVal? c = some v) : v < 16 := by
  unfold hexVal? at h
  split_ifs at h <;> (try injection h with h2) <;> omega

theorem bufferFromHex_bufferToHex :
    ∀ (buff : List Nat), (∀ b ∈ buff, b < 256) →
      bufferFromHex (bufferToHex buff) = buff
  | [], _ => by simp [bufferToHex, bufferFromHex]
  | b :: rest, h => by
    have hb : b < 256 := h b (List.mem_cons_self b rest)
    have h1 : hexVal? (hexDigit (b / 16)) = some (b / 16) := hexVal?_hexDigit _ (by omega)
    have h2 : hexVal? (hexDigit (b % 16)) = some (b % 16) := hexVal?_hexDigit _ (by omega)
    simp only [bufferToHex, bufferFromHex, h1, h2]
    rw [bufferFromHex_bufferToHex rest (fun x hx => h x (List.mem_cons_of_mem b hx))]
    congr 1
    omega

theorem bufferToHex_length : ∀ (buff : List Nat), (bufferToHex buff).length = 2 * buff.length
  | [] => rfl
  | b :: rest => by
    simp only [bufferToHex, List.length_cons, bufferToHex_length rest]
    omega

theorem bufferFromHex_all_lt : ∀ (cs : List Char) (b : Nat), b ∈ bufferFromHex cs → b < 256
  | [], b => by simp [bufferFromHex]
  | [c], b => by simp [bufferFromHex]
  | c1 :: c2 :: rest, b => by
    intro hb
    rcases hv1 : hexVal? c1 with _ | v1
    · simp [bufferFromHex, hv1] at hb
    · rcases hv2 : hexVal? c2 with _ | v2
      · simp [bufferFromHex, hv1, hv2] at hb
      · simp only [bufferFromHex, hv1, hv2, List.mem_cons] at hb
        rcases hb with hb | hb
        · have l1 := hexVal?_lt16 hv1
          have l2 := hexVal?_lt16 hv2
          omega
        · exact bufferFromHex_all_lt rest b hb

theorem bufferFromHex_length_of_all :
    ∀ (cs : List Char), cs.all isHexChar = true →
      (bufferFromHex cs).length = cs.length / 2
  | [], _ => by simp [bufferFromHex]
  | [c], _ => by simp [bufferFromHex]
  | c1 :: c2 :: rest, h => by
    simp only [List.all_cons, Bool.and_eq_true] at h
    obtain ⟨h1, h2, hrest⟩ := h
    obtain ⟨v1, hv1⟩ := Option.isSome_iff_exists.mp (by simpa [isHexChar] using h1)
    obtain ⟨v2, hv2⟩ := Option.isSome_iff_exists.mp (by simpa [isHexChar] using h2)
    simp only [bufferFromHex, hv1, hv2, List.length_cons]
    rw [bufferFromHex_length_of_all rest hrest]
    omega

theorem all_of_bufferFromHex_length :
    ∀ (cs : List Char), cs.length % 2 = 0 →
      (bufferFromHex cs).length = cs.length / 2 → cs.all isHexChar = true
  | [], _, _ => rfl
  | [c], he, _ => by simp at he
  | c1 :: c2 :: rest, he, hl => by
    rcases hv1 : hexVal? c1 with _ | v1
    · simp only [bufferFromHex, hv1, List.length_nil, List.length_cons] at hl
      omega
    · rcases hv2 : hexVal? c2 with _ | v2
      · simp only [bufferFromHex, hv1, hv2, List.length_nil, List.length_cons] at hl
        omega
      · simp only [bufferFromHex, hv1, hv2, List.length_cons] at hl
        have hrest : rest.length % 2 = 0 := by
          simp only [List.length_cons] at he
          omega
        have hlen : (bufferFromHex rest).length = rest.length / 2 := by omega
        have hall := all_of_bufferFromHex_length rest hrest hlen
        simp [List.all_cons, isHexChar, hv1, hv2, hall]

/-! ## Claim theorems for the hex helpers -/

/-- C8: encoding any buffer with `bufferToHexPrefixString` and decoding the
result with `hexToBuffer` round-trips to the original buffer. -/
theorem c8_hexToBuffer_roundTrip :
    ∀ (buff : List Nat), (∀ b ∈ buff, b < 256) →
      hexToBuffer (bufferToHexPrefixString buff) = Except.ok buff := by
  intro buff h
  unfold hexToBuffer bufferToHexPrefixString
  rw [if_neg (by simp)]
  rw [if_neg ?hlen]
  case hlen =>
    simp only [List.length_cons, bufferToHex_length]
    omega
  simp only [List.drop_succ_cons, List.drop_zero]
  rw [bufferFromHex_bufferToHex buff h]

/-- C8 witness: the round trip holds on the concrete buffer `[0, 255, 171]`. -/
theorem c8_hexToBuffer_roundTrip_witness :
    hexToBuffer (bufferToHexPrefixString [0, 255, 171]) = Except.ok [0, 255, 171] :=
  c8_hexToBuffer_roundTrip [0, 255, 171] (by decide)

/-- Evaluation of `normalizeHashString` by cases on its branch conditions. -/
theorem normalizeHashString_eq (input : JsStr) :
    normalizeHashString input =
      if input.length = 66 ∧ has0xPrefix input = true then
        (if (bufferFromHex (input.drop 2)).length = 32
         then some ('0' :: 'x' :: bufferToHex (bufferFromHex (input.drop 2))) else none)
      else if input.length = 64 then
        (if (bufferFromHex input).length = 32
         then some ('0' :: 'x' :: bufferToHex (bufferFromHex input)) else none)
      else none := by
  unfold normalizeHashString
  by_cases h1 : input.length = 66 ∧ has0xPrefix input = true
  · rw [if_pos h1, if_pos h1]
    simp only
    by_cases h2 : (bufferFromHex (input.drop 2)).length = 32
    · rw [if_neg (by omega), if_pos h2]
    · rw [if_pos (by omega), if_neg h2]
  · rw [if_neg h1, if_neg h1]
    by_cases h64 : input.length = 64
    · rw [if_pos h64, if_pos h64]
      simp only
      by_cases h2 : (bufferFromHex input).length = 32
      · rw [if_neg (by omega), if_pos h2]
      · rw [if_pos (by omega), if_neg h2]
    · rw [if_neg h64, if_neg h64]

/-- C9: `normalizeHashString` succeeds exactly on 64-character hex strings
and on 66-character strings made of a case-insensitive `0x` prefix and 64 hex
characters; the successful result is the `0x`-prefixed lower-case hex
rendering of the same 32 decoded bytes; and the function is idempotent on its
successful outputs. -/
theorem c9_normalizeHashString_spec :
    (∀ (input : JsStr),
      (normalizeHashString input).isSome = true ↔
        ((input.length = 64 ∧ input.all isHexChar = true) ∨
         (input.length = 66 ∧ has0xPrefix input = true ∧
           (input.drop 2).all isHexChar = true))) ∧
    (∀ (input out : JsStr), normalizeHashString input = some out →
      ∃ hb, hb.length = 32 ∧ out = '0' :: 'x' :: bufferToHex hb ∧
        ((input.length = 66 ∧ hb = bufferFromHex (input.drop 2)) ∨
         (input.length = 64 ∧ hb = bufferFromHex input))) ∧
    (∀ (input out : JsStr), normalizeHashString input = some out →
      normalizeHashString out = some out) := by
  have core : ∀ (input out : JsStr), normalizeHashString input = some out →
      ∃ hb, hb.length = 32 ∧ out = '0' :: 'x' :: bufferToHex hb ∧
        ((input.length = 66 ∧ hb = bufferFromHex (input.drop 2)) ∨
         (input.length = 64 ∧ hb = bufferFromHex input)) := by
    intro input out h
    rw [normalizeHashString_eq input] at h
    by_cases h1 : input.length = 66 ∧ has0xPrefix input = true
    · rw [if_pos h1] at h
      by_cases h2 : (bufferFromHex (input.drop 2)).length = 32
      · rw [if_pos h2] at h
        exact ⟨bufferFromHex (input.drop 2), h2, (Option.some.injEq .. ▸ h).symm,
          Or.inl ⟨h1.1, rfl⟩⟩
      · rw [if_neg h2] at h
        simp at h
    · rw [if_neg h1] at h
      by_cases h64 : input.length = 64
      · rw [if_pos h64] at h
        by_cases h2 : (bufferFromHex input).length = 32
        · rw [if_pos h2] at h
          exact ⟨bufferFromHex input, h2, (Option.some.injEq .. ▸ h).symm,
            Or.inr ⟨h64, rfl⟩⟩
        · rw [if_neg h2] at h
          simp at h
      · rw [if_neg h64] at h
        simp at h
  refine ⟨?_, core, ?_⟩
  · intro input
    rw [normalizeHashString_eq input]
    constructor
    · intro h
      by_cases h1 : input.length = 66 ∧ has0xPrefix input = true
      · rw [if_pos h1] at h
        by_cases h2 : (bufferFromHex (input.drop 2)).length = 32
        · refine Or.inr ⟨h1.1, h1.2, ?_⟩
          refine all_of_bufferFromHex_length (input.drop 2) ?_ ?_
          · simp [List.length_drop, h1.1]
          · rw [h2]
            simp [List.length_drop, h1.1]
        · rw [if_neg h2] at h
          simp at h
      · rw [if_neg h1] at h
        by_cases h64 : input.length = 64
        · rw [if_pos h64] at h
          by_cases h2 : (bufferFromHex input).length = 32
          · refine Or.inl ⟨h64, ?_⟩
            refine all_of_bufferFromHex_length input (by omega) ?_
            rw [h2, h64]
          · rw [if_neg h2] at h
            simp at h
        · rw [if_neg h64] at h
          simp at h
    · intro h
      rcases h with ⟨h64, hall⟩ | ⟨h66, hpre, hall⟩
      · have h1 : ¬ (input.length = 66 ∧ has0xPrefix input = true) := by
          rintro ⟨h66, _⟩
          omega
        rw [if_neg h1, if_pos h64]
        rw [if_pos (by rw [bufferFromHex_length_of_all input hall, h64])]
        simp
      · rw [if_pos ⟨h66, hpre⟩]
        rw [if_pos (by
          rw [bufferFromHex_length_of_all (input.drop 2) hall]
          simp [List.length_drop, h66])]
        simp
  · intro input out h
    obtain ⟨hb, hb32, hout, hsrc⟩ := core input out h
    have hlt : ∀ b ∈ hb, b < 256 := by
      rcases hsrc with ⟨_, hbe⟩ | ⟨_, hbe⟩ <;> (rw [hbe]; exact bufferFromHex_all_lt _)
    rw [normalizeHashString_eq out]
    have h66 : out.length = 66 := by
      rw [hout]
      simp [bufferToHex_length, hb32]
    have hpre : has0xPrefix out = true := by
      rw [hout]
      rfl
    rw [if_pos ⟨h66, hpre⟩]
    have hdrop : out.drop 2 = bufferToHex hb := by
      rw [hout]
      simp
    rw [hdrop, bufferFromHex_bufferToHex hb hlt, if_pos hb32, ← hout]

/-- C9 witness: the all-zero 64-character hex string normalizes successfully. -/
theorem c9_normalizeHashString_spec_witness :
    (normalizeHashString (List.replicate 64 '0')).isSome = true :=
  (c9_normalizeHashString_spec.1 (List.replicate 64 '0')).mpr
    (Or.inl ⟨by decide, by decide⟩)

/-! ## Enum cache lemmas -/

theorem cacheGet_cons_self {α : Type} (cache : List (EnumObj × α)) (E : EnumObj) (x : α) :
    cacheGet ((E, x) :: cache) E = some x := by
  unfold cacheGet
  rw [List.find?_cons_of_pos _ (by simp)]
  simp

theorem cacheGet_mem {α : Type} {cache : List (EnumObj × α)} {E : EnumObj} {x : α}
    (h : cacheGet cache E = some x) : (E, x) ∈ cache := by
  unfold cacheGet at h
  rcases hf : cache.find? (fun p => p.1 == E) with _ | p
  · rw [hf] at h
    simp at h
  · rw [hf] at h
    simp only [Option.map_some', Option.some.injEq] at h
    have hm := List.mem_of_find?_eq_some hf
    have hp := List.find?_some hf
    simp only [beq_iff_eq] at hp
    rw [← h, ← hp]
    simpa using hm

theorem isEnum_of_hit {cache : EnumCheckCache} {E : EnumObj} {checker : List Int} (v : Int)
    (h : cacheGet cache E = some checker) :
    isEnum cache E v = (checker.contains v, cache) := by
  unfold isEnum
  rw [h]

theorem isEnum_of_miss {cache : EnumCheckCache} {E : EnumObj} (v : Int)
    (h : cacheGet cache E = none) :
    isEnum cache E v =
      ((createEnumChecker E).contains v, (E, createEnumChecker E) :: cache) := by
  unfold isEnum
  rw [h]
  simp only [cacheGet_cons_self]

theorem isEnum_result {cache : EnumCheckCache} {E : EnumObj} (v : Int)
    (hok : CacheOK cache) :
    (isEnum cache E v).1 = (createEnumChecker E).contains v := by
  rcases hc : cacheGet cache E with _ | checker
  · rw [isEnum_of_miss v hc]
  · rw [isEnum_of_hit v hc]
    have := hok (E, checker) (cacheGet_mem hc)
    simp only at this
    rw [this]

theorem isEnum_cacheOK {cache : EnumCheckCache} {E : EnumObj} (v : Int)
    (hok : CacheOK cache) : CacheOK (isEnum cache E v).2 := by
  rcases hc : cacheGet cache E with _ | checker
  · rw [isEnum_of_miss v hc]
    intro p hp
    rcases List.mem_cons.mp hp with hp | hp
    · rw [hp]
    · exact hok p hp
  · rw [isEnum_of_hit v hc]
    exact hok

theorem contains_iff_mem {l : List Int} {v : Int} : l.contains v = true ↔ v ∈ l := by
  simp [List.contains]

/-! ## Claim theorems for the enum helpers -/

/-- C4 counterexample: starting from the freshly constructed (empty) shared
caches, a single call to `isEnum` or to `getEnumDescription` mutates the
shared lookup state, inserting the lazily built table for the queried enum
object. -/
theorem c4_counterexample :
    (isEnum [] colorEnum 3).2 ≠ ([] : EnumCheckCache) ∧
    (getEnumDescription [] colorEnum 3).2 ≠ ([] : EnumMapsCache) :=
  ⟨by decide, by decide⟩

/-- C4 amended: the shared enum caches are lazily populated mutable maps —
the first call for a given enum object inserts that object's table, but once
an object's entry is present neither `isEnum` nor `getEnumDescription`
mutates the shared state again, and the per-object tables themselves are
fixed: the observable `isEnum` answer is membership of the value in the
enum's numeric values, independent of cache state. -/
theorem c4_amended_lazySharedCaches :
    (∀ (cache : EnumCheckCache) (E : EnumObj) (v : Int) (checker : List Int),
      cacheGet cache E = some checker → (isEnum cache E v).2 = cache) ∧
    (∀ (maps : EnumMapsCache) (E : EnumObj) (v : Int) (m : List (Int × String)),
      cacheGet maps E = some m → (getEnumDescription maps E v).2 = maps) ∧
    (∀ (cache : EnumCheckCache) (E : EnumObj) (v : Int), CacheOK cache →
      ((isEnum cache E v).1 = true ↔ v ∈ createEnumChecker E)) := by
  refine ⟨?_, ?_, ?_⟩
  · intro cache E v checker h
    rw [isEnum_of_hit v h]
  · intro maps E v m h
    unfold getEnumDescription
    rw [h]
    simp only
    cases jsMapGet m v <;> rfl
  · intro cache E v hok
    rw [isEnum_result v hok]
    exact contains_iff_mem

/-- C4 amended witness: with the entry for the sample enum already present,
an `isEnum` call leaves the shared cache unchanged. -/
theorem c4_amended_lazySharedCaches_witness :
    (isEnum [(colorEnum, [3, 5])] colorEnum 5).2 = [(colorEnum, [3, 5])] :=
  c4_amended_lazySharedCaches.1 [(colorEnum, [3, 5])] colorEnum 5 [3, 5] (by decide)

/-- C10: `isEnum` returns `true` exactly when the value is one of the enum's
numeric values; the empty cache is consistent, every call preserves
consistency, the answer does not depend on the (consistent) cache state, and
repeating a call after its own cache update returns the same answer. -/
theorem c10_isEnum_correct :
    CacheOK [] ∧
    (∀ (cache : EnumCheckCache) (E : EnumObj) (v : Int), CacheOK cache →
      CacheOK (isEnum cache E v).2) ∧
    (∀ (cache : EnumCheckCache) (E : EnumObj) (v : Int), CacheOK cache →
      ((isEnum cache E v).1 = true ↔ v ∈ createEnumChecker E)) ∧
    (∀ (cache1 cache2 : EnumCheckCache) (E : EnumObj) (v : Int),
      CacheOK cache1 → CacheOK cache2 →
      (isEnum cache1 E v).1 = (isEnum cache2 E v).1) ∧
    (∀ (cache : EnumCheckCache) (E : EnumObj) (v : Int), CacheOK cache →
      (isEnum (isEnum cache E v).2 E v).1 = (isEnum cache E v).1) := by
  refine ⟨?_, ?_, ?_, ?_, ?_⟩
  · intro p hp
    simp at hp
  · intro cache E v hok
    exact isEnum_cacheOK v hok
  · intro cache E v hok
    rw [isEnum_result v hok]
    exact contains_iff_mem
  · intro cache1 cache2 E v hok1 hok2
    rw [isEnum_result v hok1, isEnum_result v hok2]
  · intro cache E v hok
    rw [isEnum_result v (isEnum_cacheOK v hok), isEnum_result v hok]

/-- C10 witness: on the sample enum from the source doc comment, `isEnum`
answers membership starting from the empty cache. -/
theorem c10_isEnum_correct_witness :
    (isEnum [] colorEnum 3).1 = true ↔ 3 ∈ createEnumChecker colorEnum :=
  c10_isEnum_correct.2.2.1 [] colorEnum 3 (by simp [CacheOK])

end StacksApi
